import Mathlib

/-!
Verification of the tiered associative-memory core (three-layer memory with
a hybrid router, linear classifier, LRU cache, per-layer stores, decay and
conflict handling).  The TypeScript sources are shallowly embedded below:
pure functions become Lean functions, stateful store operations become
explicit state passing over lists, JS numbers become exact rationals or
reals (reals where `Math.exp` / `Math.pow` with real exponents occur),
and external services (the sentence-embedding provider, timestamps, id
generation, random weight initialization) become explicit parameters.
All string processing is done on `List Char` (the `.data` of a `String`)
with structural recursion so that concrete instances evaluate by `decide`.
-/

namespace Presence

/-! ## Character / string helpers (ASCII semantics of the JS string ops) -/

/-- The apostrophe character (several JS pattern literals contain it). -/
def apoC : Char := Char.ofNat 39

def isWs (c : Char) : Bool := c.isWhitespace

/-- `text.toLowerCase()` on the underlying characters. -/
def lowerL (l : List Char) : List Char := l.map Char.toLower

/-- `text.trim()` on the underlying characters. -/
def trimL (l : List Char) : List Char :=
  ((l.dropWhile isWs).reverse.dropWhile isWs).reverse

/-- Does `l` start with `pat`?  (prefix test used for the `^`-anchored regexes). -/
def startsWithL : List Char → List Char → Bool
  | _, [] => true
  | [], _ :: _ => false
  | c :: cs, p :: ps => c == p && startsWithL cs ps

/-- JS `String.prototype.includes`: does `pat` occur as a contiguous substring of `l`? -/
def containsL : List Char → List Char → Bool
  | l, pat =>
    startsWithL l pat ||
      match l with
      | [] => false
      | _ :: t => containsL t pat

/-- JS `\w` character class: `[A-Za-z0-9_]`. -/
def isWordChar (c : Char) : Bool := c.isAlphanum || c == '_'

/-- JS `text.split(/\s+/)`: pieces between maximal whitespace runs
(a leading/trailing run contributes an empty piece, as in JS). -/
def splitWsPieces : List Char → List (List Char)
  | [] => [[]]
  | c :: cs =>
    let r := splitWsPieces cs
    if isWs c then
      match cs with
      | [] => [] :: r
      | d :: _ => if isWs d then r else [] :: r
    else
      match r with
      | [] => [[c]]
      | p :: ps => (c :: p) :: ps

/-! ## Data model enums (types.ts) -/

inductive Layer
  | IMM | EMM | KMM
  deriving DecidableEq, Repr

inductive Decision
  | IMM | EMM | KMM | ASK | CONFLICT | NONE
  deriving DecidableEq, Repr

/-- The injection of the `Layer` union member into the `Decision` union. -/
def Layer.toDecision : Layer → Decision
  | .IMM => .IMM
  | .EMM => .EMM
  | .KMM => .KMM

inductive ContextType
  | general | family | work | college | personal | health | hobby
  deriving DecidableEq, Repr

inductive Role
  | user | assistant
  deriving DecidableEq, Repr

/-! ## Context detection (types.ts `detectContext`, the `./utils` export used
by `memorySystem.ts`) -/

/-- `CONTEXT_KEYWORDS`, in the object-literal insertion order the JS
`Object.entries` iteration follows. -/
def CONTEXT_KEYWORDS : List (ContextType × List String) :=
  [ (.family, ["mom", "dad", "mother", "father", "parent", "sibling", "brother",
      "sister", "family", "home", "grandma", "grandpa", "aunt", "uncle", "cousin",
      "wife", "husband", "spouse", "kid", "child", "son", "daughter"]),
    (.work, ["work", "job", "office", "boss", "colleague", "coworker", "project",
      "meeting", "deadline", "salary", "career", "promotion", "client", "business",
      "professional", "company", "manager", "team"]),
    (.college, ["college", "university", "school", "class", "professor", "teacher",
      "exam", "test", "grade", "study", "student", "campus", "lecture", "homework",
      "assignment", "degree", "major", "semester"]),
    (.personal, ["myself", "i feel", "i think", "i believe", "my opinion",
      "personally", "my life", "my goal", "my dream", "my fear", "my hope"]),
    (.health, ["health", "doctor", "hospital", "medicine", "sick", "illness",
      "exercise", "diet", "sleep", "mental", "therapy", "anxiety", "depression",
      "stress", "workout", "gym", "weight"]),
    (.hobby, ["hobby", "game", "music", "movie", "book", "art", "sport", "travel",
      "cooking", "reading", "playing", "watching", "listening", "collecting",
      "photography", "painting"]) ]

/-- `detectContext(text)`: lowercase the text, count keyword hits per context,
keep the context with strictly more hits than the best so far (so ties keep the
earlier context and `general` wins when all counts are zero). -/
def detectContext (text : String) : ContextType :=
  let lower := lowerL text.data
  (CONTEXT_KEYWORDS.foldl
    (fun (best : ContextType × Nat) p =>
      let hits := (p.2.filter (fun kw => containsL lower kw.data)).length
      if best.2 < hits then (p.1, hits) else best)
    (ContextType.general, 0)).1

/-! ## Importance scoring (types.ts `calculateImportance`) -/

def emotionalWords : List String :=
  ["love", "hate", "fear", "hope", "dream", "worry", "excited", "sad", "happy",
   "angry", "frustrated"]

/-- `calculateImportance(text, role)`: base 0.5, +0.1 for user role, +0.05 per
emotional-word hit capped at +0.2, +0.1 for a question mark, +0.1 for more than
20 words, finally `Math.min(1, ·)`. -/
def calculateImportance (text : String) (role : Role) : ℚ :=
  let emotionalCount :=
    (emotionalWords.filter (fun w => containsL (lowerL text.data) w.data)).length
  min 1
    (0.5 + (if role = Role.user then 0.1 else 0)
         + min 0.2 ((emotionalCount : ℚ) * 0.05)
         + (if containsL text.data ['?'] then 0.1 else 0)
         + (if 20 < (splitWsPieces text.data).length then 0.1 else 0))

/-! ## Identity extraction (hardRules.ts `extractIdentityFact`)

The JS regexes are unanchored `String.prototype.match` searches; they are
embedded as leftmost-match scans (`searchPos`) of deterministic pattern
functions.  Greedy `\s+` / `\w+` / `[a-z]+` runs are maximal takes; the only
backtracking the patterns can perform (alternations whose first branch fails
later, the lazy `(.+?)` capture) is resolved explicitly below. -/

/-- Consume the literal `pat` from the front of `l`. -/
def dropLit : List Char → List Char → Option (List Char)
  | l, [] => some l
  | [], _ :: _ => none
  | c :: cs, p :: ps => if c == p then dropLit cs ps else none

/-- Case-insensitive variant (for the `/i` regex with an original-case capture). -/
def dropLitCI : List Char → List Char → Option (List Char)
  | l, [] => some l
  | [], _ :: _ => none
  | c :: cs, p :: ps => if c.toLower == p.toLower then dropLitCI cs ps else none

/-- `\s+` followed by a non-whitespace continuation: require one whitespace
character and consume the whole run. -/
def dropWs1 (l : List Char) : Option (List Char) :=
  match l with
  | [] => none
  | c :: cs => if isWs c then some (cs.dropWhile isWs) else none

/-- Greedy `(\w+)` capture: the maximal nonempty word-character run and the rest. -/
def takeWord1 (l : List Char) : Option (List Char × List Char) :=
  let w := l.takeWhile isWordChar
  if w.isEmpty then none else some (w, l.drop w.length)

/-- Leftmost-match search: try the pattern at every suffix, earliest hit wins
(the semantics of an unanchored JS regex search). -/
def searchPos {α : Type} (f : List Char → Option α) : List Char → Option α
  | [] => f []
  | c :: t =>
    match f (c :: t) with
    | some r => some r
    | none => searchPos f t

/-- The characters of the contraction marker: `'m`, `don't`, … -/
def litIm : List Char := ['i', apoC, 'm']

def litImU : List Char := ['I', apoC, 'm']

def litDont : List Char := ("don").data ++ [apoC] ++ ("t").data

/-- `/my name is\s+(\w+)/` (searched in the lowercased text). -/
def patMyNameIs (l : List Char) : Option (List Char) := do
  let r1 ← dropLit l ("my name is").data
  let r2 ← dropWs1 r1
  let (w, _) ← takeWord1 r2
  pure w

/-- `/(?:I'm|I am)\s+([A-Z][a-z]+)(?:\s*[.,!])?$/` (searched in the original
text; the match must reach the end of the string). -/
def patImName (l : List Char) : Option (List Char) := do
  let r1 ← (dropLit l litImU) <|> (dropLit l ("I am").data)
  let r2 ← dropWs1 r1
  match r2 with
  | [] => none
  | u :: rest =>
    if u.isUpper then
      let w := rest.takeWhile Char.isLower
      if w.isEmpty then none
      else
        let rem := rest.drop w.length
        if rem.isEmpty then pure (u :: w)
        else
          match rem.dropWhile isWs with
          | [p] => if p == '.' || p == ',' || p == '!' then pure (u :: w) else none
          | _ => none
    else none

/-- `/i(?:'m| am)\s+(?:a|an)\s+(\w+)/` (lowercased text). -/
def patTrait (l : List Char) : Option (List Char) := do
  let r1 ← dropLit l ['i']
  let r2 ← (dropLit r1 [apoC, 'm']) <|> (dropLit r1 (" am").data)
  let r3 ← dropWs1 r2
  match (do
      let x1 ← dropLit r3 ['a']
      let x2 ← dropWs1 x1
      let (w, _) ← takeWord1 x2
      pure w) with
  | some w => pure w
  | none => do
    let x1 ← dropLit r3 ("an").data
    let x2 ← dropWs1 x1
    let (w, _) ← takeWord1 x2
    pure w

/-- `/i (?:don't|do not)\s+(eat|drink)\s+(\w+)/` (lowercased text); returns
the verb capture and the object capture. -/
def patDontEat (l : List Char) : Option (String × List Char) := do
  let r1 ← dropLit l ("i ").data
  let r2 ← (dropLit r1 litDont) <|> (dropLit r1 ("do not").data)
  let r3 ← dropWs1 r2
  match (do
      let x1 ← dropLit r3 ("eat").data
      let x2 ← dropWs1 x1
      let (w, _) ← takeWord1 x2
      pure w) with
  | some w => pure ("eat", w)
  | none => do
    let x1 ← dropLit r3 ("drink").data
    let x2 ← dropWs1 x1
    let (w, _) ← takeWord1 x2
    pure ("drink", w)

/-- `/i(?:'m| am) allergic to\s+(.+?)(?:\.|,|$)/` (lowercased text): the lazy
capture is the shortest nonempty run whose successor is `.`/`,`/end. -/
def patAllergic (l : List Char) : Option (List Char) := do
  let r1 ← dropLit l ['i']
  let r2 ← (dropLit r1 [apoC, 'm']) <|> (dropLit r1 (" am").data)
  let r3 ← dropLit r2 (" allergic to").data
  let r4 ← dropWs1 r3
  match r4 with
  | [] => none
  | c :: rest => pure (c :: rest.takeWhile (fun d => !(d == '.' || d == ',')))

/-- `/call me\s+(\w+)/i` (searched case-insensitively in the original text,
so the capture keeps its original case). -/
def patCallMe (l : List Char) : Option (List Char) := do
  let r1 ← dropLitCI l ("call me").data
  let r2 ← dropWs1 r1
  let (w, _) ← takeWord1 r2
  pure w

/-- `/my (diet|religion|language|gender) is\s+(\w+)/` (lowercased text). -/
def patMyAttrIs (l : List Char) : Option (String × List Char) := do
  let r1 ← dropLit l ("my ").data
  let tryKey : String → Option (String × List Char) := fun k => do
    let x1 ← dropLit r1 k.data
    let x2 ← dropLit x1 (" is").data
    let x3 ← dropWs1 x2
    let (w, _) ← takeWord1 x3
    pure (k, w)
  (tryKey ("diet")) <|> (tryKey ("religion")) <|> (tryKey ("language")) <|>
    tryKey ("gender")

/-- The result record of `extractIdentityFact` (`{key?, value?}`). -/
structure Extraction where
  key : Option String
  value : Option String
  deriving DecidableEq, Repr

def dietaryValues : List String := ["vegetarian", "vegan", "pescatarian", "flexitarian"]

def religionValues : List String :=
  ["christian", "muslim", "jewish", "buddhist", "hindu", "atheist", "agnostic"]

/-- `extractIdentityFact(text)`: the deterministic first-match-wins cascade of
hardRules.ts. -/
def extractIdentityFact (text : String) : Extraction :=
  let t := trimL text.data
  let tl := lowerL t
  match searchPos patMyNameIs tl with
  | some w => ⟨some ("name"), some (String.mk w)⟩
  | none =>
  match searchPos patImName t with
  | some w => ⟨some ("name"), some (String.mk w)⟩
  | none =>
  match searchPos patTrait tl with
  | some w =>
    let v := String.mk w
    if dietaryValues.contains v then ⟨some ("diet"), some v⟩
    else if religionValues.contains v then ⟨some ("religion"), some v⟩
    else ⟨some ("trait"), some v⟩
  | none =>
  match searchPos patDontEat tl with
  | some (verb, w) => ⟨some ("avoid_" ++ verb), some (String.mk w)⟩
  | none =>
  match searchPos patAllergic tl with
  | some v => ⟨some ("allergy"), some (String.mk (trimL v))⟩
  | none =>
  match searchPos patCallMe t with
  | some w => ⟨some ("preferred_name"), some (String.mk w)⟩
  | none =>
  match searchPos patMyAttrIs tl with
  | some (k, w) => ⟨some k, some (String.mk w)⟩
  | none => ⟨none, none⟩

/-! ## Hard rules (hardRules.ts `applyHardRules`)

`hardRule` returns the `(decision, reasoning)` pair of the branch that fires;
`applyHardRules` wraps it in the `force` record, exactly as every branch of the
source returns `force(layer, reason)`. -/

/-- `^`-anchored case-insensitive identity regexes, as prefix alternatives of
the trimmed lowercased text. -/
def identityPrefixList : List (List Char) :=
  [ ("my name is ").data,
    ("i am a ").data, ("i am an ").data,
    litIm ++ (" a ").data, litIm ++ (" an ").data,
    ("i do not eat ").data, ("i ").data ++ litDont ++ (" eat ").data,
    ("i eat only ").data,
    ("my diet is ").data, ("my religion is ").data, ("my language is ").data,
    ("my gender is ").data,
    ("call me ").data,
    ("i prefer to be called ").data,
    ("i identify as ").data,
    ("i am allergic to ").data, litIm ++ (" allergic to ").data,
    ("i have a allergy").data, ("i have a food allergy").data,
    ("never call me").data, ("never refer to me").data ]

/-- `/^i am (\w+)$/i` and `/^i'm (\w+)$/i`: the prefix followed by a nonempty
word-character run reaching the end. -/
def wordToEnd (tl : List Char) (pre : List Char) : Bool :=
  match dropLit tl pre with
  | some r => !r.isEmpty && r.all isWordChar
  | none => false

def identityPatternHit (tl : List Char) : Bool :=
  identityPrefixList.any (startsWithL tl) ||
    wordToEnd tl (("i am ").data) || wordToEnd tl (litIm ++ [' '])

def correctionPatternHit (tl : List Char) : Bool :=
  startsWithL tl (("actually,").data) || startsWithL tl (("actually ").data) ||
  startsWithL tl (("correction:").data) || startsWithL tl (("correction ").data) ||
  startsWithL tl (("i meant ").data) ||
  containsL tl (("no, that").data ++ [apoC] ++ ("s wrong").data) ||
  startsWithL tl (("that").data ++ [apoC] ++ ("s not right").data) ||
  startsWithL tl (("wait, ").data ++ litIm ++ (" actually").data) ||
  startsWithL tl (("i changed my ").data) ||
  startsWithL tl (("i now ").data)

def knowledgePatternHit (tl : List Char) : Bool :=
  ([ ("i know how to ").data, ("i know about ").data,
     ("i learned ").data, ("i understand ").data,
     ("i can code ").data, ("i can program ").data, ("i can write ").data,
     ("i can build ").data, ("i can create ").data, ("i can design ").data,
     ("i can speak ").data,
     litIm ++ (" good at ").data, litIm ++ (" skilled in ").data,
     ("i specialize in ").data, ("i work with ").data,
     ("i have experience in ").data ] : List (List Char)).any (startsWithL tl)

def SAFETY_BLOCKLIST : List String :=
  ["kill yourself", "hurt you", "fuck you", "i hate you", "die"]

/-- The branch structure of `applyHardRules`: commands, safety blocklist,
identity patterns, correction patterns, knowledge indicators, in that order. -/
def hardRule (text : String) : Option (Decision × String) :=
  let t := trimL text.data
  let tl := lowerL t
  if startsWithL tl (("/recall ").data) then some (.EMM, "Explicit recall command")
  else if startsWithL tl (("/forget ").data) then some (.EMM, "Explicit forget command")
  else if startsWithL tl (("/remember ").data) then some (.IMM, "Explicit remember command")
  else if SAFETY_BLOCKLIST.any (fun b => containsL tl b.data) then
    some (.NONE, "Safety trigger - content blocked")
  else if identityPatternHit tl then some (.IMM, "Explicit identity declaration")
  else if correctionPatternHit tl then some (.IMM, "Explicit correction - identity update")
  else if knowledgePatternHit tl then some (.KMM, "Explicit knowledge/skill declaration")
  else none

inductive RSource
  | RULE | ML
  deriving DecidableEq, Repr

structure RoutingResult where
  decision : Decision
  confidence : ℝ
  probabilities : Layer → ℝ
  source : RSource
  reasoning : String

/-- The forced routing record every hard-rule branch returns. -/
def force (layer : Decision) (reason : String) : RoutingResult :=
  { decision := layer, confidence := 1, probabilities := fun _ => 0,
    source := .RULE, reasoning := reason }

def applyHardRules (text : String) : Option RoutingResult :=
  (hardRule text).map (fun p => force p.1 p.2)

/-! ## Linear classifier (classifier.ts) -/

/-- One weight vector per layer (`RouterWeights`). -/
abbrev Weights : Type := Layer → List ℝ

/-- The classifier's private `dot`: sum over the common length of the vectors. -/
noncomputable def dotR (a b : List ℝ) : ℝ := (List.zipWith (fun x y => x * y) a b).sum

noncomputable def score (W : Weights) (x : List ℝ) (L : Layer) : ℝ := dotR (W L) x

/-- `Math.max(scores.IMM, scores.EMM, scores.KMM)`. -/
noncomputable def maxScore (W : Weights) (x : List ℝ) : ℝ :=
  max (score W x .IMM) (max (score W x .EMM) (score W x .KMM))

/-- `predict`: numerically stable softmax — subtract the maximum score, `exp`,
normalize. -/
noncomputable def probsR (W : Weights) (x : List ℝ) (L : Layer) : ℝ :=
  Real.exp (score W x L - maxScore W x) /
    (Real.exp (score W x .IMM - maxScore W x) +
     Real.exp (score W x .EMM - maxScore W x) +
     Real.exp (score W x .KMM - maxScore W x))

noncomputable def indicator (L c : Layer) : ℝ := if L = c then 1 else 0

/-- One layer's weight update `w[i] += lr * error * x[i]` with the default
learning rate 0.05 (the router always calls `train` without an explicit rate).
Entries of `w` beyond the length of `x` are untouched; classifier and
embedding dimensions agree in every constructed instance. -/
noncomputable def updateW (w x : List ℝ) (err : ℝ) : List ℝ :=
  List.zipWith (fun wi xi => wi + 0.05 * err * xi) w x ++ w.drop x.length

/-- `train(x, correct)`: the probabilities are computed once from the current
weights, then every layer's vector moves by `lr · (𝟙[L = correct] − p_L) · x`. -/
noncomputable def trainStep (W : Weights) (x : List ℝ) (c : Layer) : Weights :=
  fun L => updateW (W L) x (indicator L c - probsR W x L)

/-! ## LRU cache (cache.ts), generic in the stored value

The JS `Map` is modeled as an insertion-ordered association list: the head is
the least recently used entry, the tail end the most recently used. -/

structure CacheEntry (α : Type) where
  result : α
  timestamp : ℤ
  deriving DecidableEq, Repr

abbrev CacheState (α : Type) : Type := List (String × CacheEntry α)

def eraseCacheKey {α : Type} (k : String) (s : CacheState α) : CacheState α :=
  s.filter (fun p => !(p.1 == k))

def lookupCache {α : Type} (k : String) (s : CacheState α) : Option (CacheEntry α) :=
  (s.find? (fun p => p.1 == k)).map Prod.snd

/-- `get(key)`: miss when absent; evict and miss when expired
(`now − inserted > ttl`); otherwise move to the MRU end and return. -/
def cacheGet {α : Type} (ttl now : ℤ) (k : String) (s : CacheState α) :
    Option α × CacheState α :=
  match s.find? (fun p => p.1 == k) with
  | none => (none, s)
  | some e =>
    if ttl < now - e.2.timestamp then (none, eraseCacheKey k s)
    else (some e.2.result, eraseCacheKey k s ++ [(k, e.2)])

/-- `set(key, value)`: delete an existing entry first, evict the LRU head when
at capacity, insert at the MRU end stamped with the current time. -/
def cacheSet {α : Type} (maxSize : ℕ) (now : ℤ) (k : String) (v : α)
    (s : CacheState α) : CacheState α :=
  let s1 := if s.any (fun p => p.1 == k) then eraseCacheKey k s else s
  let s2 := if maxSize ≤ s1.length then s1.tail else s1
  s2 ++ [(k, ⟨v, now⟩)]

/-- The parameters the router constructs the cache with: capacity 1000,
TTL 30 minutes. -/
def CACHE_CAPACITY : ℕ := 1000

def CACHE_TTL_MS : ℤ := 30 * 60 * 1000

inductive CacheOp (α : Type)
  | get (now : ℤ) (k : String)
  | set (now : ℤ) (k : String) (v : α)
  | clear

def applyCacheOp {α : Type} (s : CacheState α) : CacheOp α → CacheState α
  | .get now k => (cacheGet CACHE_TTL_MS now k s).2
  | .set now k v => cacheSet CACHE_CAPACITY now k v s
  | .clear => []

/-- Run a sequence of cache operations from the freshly constructed (empty)
cache. -/
def runCacheOps {α : Type} (ops : List (CacheOp α)) : CacheState α :=
  ops.foldl applyCacheOp []

/-! ## Router (router.ts `ProductionRouter.route`) -/

def CONFIDENCE_THRESHOLD : ℝ := 0.6

def CONFLICT_MARGIN : ℝ := 0.15

/-- `text + "|" + context.slice(-3).join("|")`. -/
def cacheKey (text : String) (context : List String) : String :=
  text ++ "|" ++ String.intercalate "|" (context.drop (context.length - 3))

/-- `embed(text, context)`: the text embedding alone for empty context,
otherwise the element-wise average with the embedding of the last five
context lines joined by spaces.  (Provider embeddings share one dimension.) -/
noncomputable def blendEmbed (embedF : String → List ℝ) (text : String) (context : List String) :
    List ℝ :=
  let textEmb := embedF text
  if context.isEmpty then textEmb
  else
    let ctxEmb := embedF (String.intercalate " " (context.drop (context.length - 5)))
    List.zipWith (fun v c => (v + c) / 2) textEmb ctxEmb

/-- Stable descending insertion by probability: an element moves ahead only of
strictly smaller ones, which is the order the stable JS
`sort((a, b) => b[1] - a[1])` produces. -/
noncomputable def insertDesc (p : Layer × ℝ) : List (Layer × ℝ) → List (Layer × ℝ)
  | [] => [p]
  | q :: qs => if q.2 < p.2 then p :: q :: qs else q :: insertDesc p qs

noncomputable def sortProbsDesc : List (Layer × ℝ) → List (Layer × ℝ)
  | [] => []
  | p :: ps => insertDesc p (sortProbsDesc ps)

/-- `Object.entries(probs)` in record-literal order, sorted descending. -/
noncomputable def sortedEntries (probs : Layer → ℝ) : List (Layer × ℝ) :=
  sortProbsDesc [(.IMM, probs .IMM), (.EMM, probs .EMM), (.KMM, probs .KMM)]

/-- `sorted[0]`: the top layer with its probability. -/
noncomputable def topEntry (probs : Layer → ℝ) : Layer × ℝ :=
  (sortedEntries probs).headD (.IMM, 0)

/-- `sorted[1]`: the runner-up layer with its probability. -/
noncomputable def secondEntry (probs : Layer → ℝ) : Layer × ℝ :=
  ((sortedEntries probs).drop 1).headD (.IMM, 0)

/-- The fallback result when the classifier is not ready. -/
def fallbackResult : RoutingResult :=
  { decision := .EMM, confidence := 0.5,
    probabilities := fun L => match L with | .IMM => 0.2 | .EMM => 0.5 | .KMM => 0.3,
    source := .ML, reasoning := "Classifier not ready, defaulting to EMM" }

/-- `route(text, context)`: hard rules (returned uncached), then the cache,
then the classifier with the thresholded decision rule; the ML result is
cached.  The interpolated parts of the `reasoning` strings are omitted. -/
noncomputable def route (classifier : Option Weights) (embedF : String → List ℝ)
    (now : ℤ) (cache : CacheState RoutingResult) (text : String)
    (context : List String) : RoutingResult × CacheState RoutingResult :=
  match applyHardRules text with
  | some r => (r, cache)
  | none =>
    let key := cacheKey text context
    match cacheGet CACHE_TTL_MS now key cache with
    | (some r, cache1) => (r, cache1)
    | (none, cache1) =>
      match classifier with
      | none => (fallbackResult, cache1)
      | some W =>
        let x := blendEmbed embedF text context
        let probs := probsR W x
        let top := topEntry probs
        let second := secondEntry probs
        let dr : Decision × String :=
          if top.2 < CONFIDENCE_THRESHOLD then (.ASK, "Low confidence")
          else if top.2 - second.2 < CONFLICT_MARGIN then (.CONFLICT, "Competing intents")
          else (top.1.toDecision, "ML dominant intent")
        let result : RoutingResult :=
          { decision := dr.1, confidence := top.2, probabilities := probs,
            source := .ML, reasoning := dr.2 }
        (result, cacheSet CACHE_CAPACITY now key result cache1)

/-! ## Store records and state (types.ts, identityStore.ts, experienceStore.ts,
knowledgeStore.ts)

Timestamps: the stores write `new Date().toISOString()` and the decay / recency
code reads it back through `new Date(ts).getTime()`; experience timestamps are
modeled directly as epoch milliseconds (`tsMs`), identity/knowledge timestamps
as the opaque ISO string the environment supplies. -/

inductive FactSource
  | explicit | inferred
  deriving DecidableEq, Repr

structure IdentityFact where
  id : String
  key : String
  value : String
  category : String
  confidence : ℚ
  confirmationCount : ℕ
  lastConfirmed : String
  createdAt : String
  source : FactSource
  deriving DecidableEq, Repr

structure ExperienceEntry where
  id : String
  content : String
  context : ContextType
  tsMs : ℝ
  importance : ℝ
  originalImportance : ℝ
  role : Role
  embedding : Option (List ℝ)

structure KnowledgeEntry where
  id : String
  content : String
  category : String
  embedding : List ℝ
  confidence : ℚ
  reinforcementCount : ℕ
  timestamp : String

inductive SuggestedAction
  | ask_user | update | ignore
  deriving DecidableEq, Repr

structure MemoryConflict where
  existingFact : IdentityFact
  newValue : String
  suggestedAction : SuggestedAction
  deriving DecidableEq, Repr

structure WriteResult where
  success : Bool
  layer : Layer
  conflict : Option MemoryConflict
  message : String
  deriving DecidableEq, Repr

/-- The external collaborators of one write/route call: the clock (`now` in
milliseconds, as an integer for the cache and a real for decay arithmetic,
plus its ISO rendering), `generateId`, and the embedding provider with its
status. -/
structure Env where
  nowIso : String
  nowMs : ℝ
  now : ℤ
  freshId : String → String
  embedReady : Bool
  embedF : String → List ℝ

/-- IndexedDB `store.put` with `keyPath: "id"`: replace the entry with the
same id, otherwise append. -/
def upsertBy {α : Type} (idOf : α → String) (x : α) (l : List α) : List α :=
  if l.any (fun g => idOf g == idOf x) then
    l.map (fun g => if idOf g == idOf x then x else g)
  else l ++ [x]

def lowerS (s : String) : String := String.mk (lowerL s.data)

/-- `getIdentityByKey`: among the facts with this key, the first one of
maximal confidence (the head of the stable descending sort by confidence);
`none` when the key is absent. -/
def getIdentityByKey (k : String) (l : List IdentityFact) : Option IdentityFact :=
  match l.filter (fun f => f.key == k) with
  | [] => none
  | f :: fs =>
    some (fs.foldl (fun best g => if best.confidence < g.confidence then g else best) f)

/-- `updateIdentityConfidence(id, c)`: cap at 1, bump the confirmation count,
refresh the timestamp. -/
def updateIdentityConfidence (env : Env) (id : String) (newConf : ℚ)
    (l : List IdentityFact) : List IdentityFact :=
  l.map (fun f =>
    if f.id == id then
      { f with confidence := min 1 newConf,
               confirmationCount := f.confirmationCount + 1,
               lastConfirmed := env.nowIso }
    else f)

/-! ## Write pipeline (memorySystem.ts) -/

/-- `writeIdentity(content)`: extract, reject on empty extraction, detect a
case-insensitive value conflict (returned without writing), reinforce an
equal value, or insert a fresh fact with confidence 0.8.  Interpolated
message texts are abbreviated to their fixed parts. -/
def writeIdentity (env : Env) (content : String) (store : List IdentityFact) :
    WriteResult × List IdentityFact :=
  let extraction := extractIdentityFact content
  match extraction.key, extraction.value with
  | some k, some v =>
    (match getIdentityByKey k store with
     | some existing =>
       if !(lowerS existing.value == lowerS v) then
         ({ success := false, layer := .IMM,
            conflict := some
              { existingFact := existing, newValue := v,
                suggestedAction :=
                  if 0.8 < existing.confidence then .ask_user else .update },
            message := "Conflict" }, store)
       else
         ({ success := true, layer := .IMM, conflict := none,
            message := "Identity fact reinforced" },
          updateIdentityConfidence env existing.id (existing.confidence + 0.1) store)
     | none =>
       let newFact : IdentityFact :=
         { id := env.freshId ("imm"), key := k, value := v,
           category := if k == "name" then "identity" else "preference",
           confidence := 0.8, confirmationCount := 1,
           lastConfirmed := env.nowIso, createdAt := env.nowIso,
           source := .explicit }
       ({ success := true, layer := .IMM, conflict := none, message := "Stored" },
        upsertBy (fun f => f.id) newFact store))
  | _, _ =>
    ({ success := false, layer := .IMM, conflict := none,
       message := "Could not extract identity fact" }, store)

def ContextType.str : ContextType → String
  | .general => "general"
  | .family => "family"
  | .work => "work"
  | .college => "college"
  | .personal => "personal"
  | .health => "health"
  | .hobby => "hobby"

/-- The JS expression `detectContext(content) || context`: the fallback is
taken only when the left operand is falsy, i.e. the empty string — which the
`ContextType` union never is, so the detected value always wins. -/
def jsOrContext (detected fallback : ContextType) : ContextType :=
  if detected.str = "" then fallback else detected

/-- The experience entry `writeExperience` builds: importance from
`calculateImportance`, context from `detectContext(content) || context`,
embedding only when the provider is ready. -/
def mkExperienceEntry (env : Env) (content : String) (role : Role)
    (context : ContextType) : ExperienceEntry :=
  let importance := ((calculateImportance content role : ℚ) : ℝ)
  { id := env.freshId ("emm"), content := content,
    context := jsOrContext (detectContext content) context,
    tsMs := env.nowMs, importance := importance,
    originalImportance := importance, role := role,
    embedding := if env.embedReady then some (env.embedF content) else none }

def writeExperience (env : Env) (content : String) (role : Role)
    (context : ContextType) (store : List ExperienceEntry) :
    WriteResult × List ExperienceEntry :=
  let entry := mkExperienceEntry env content role context
  ({ success := true, layer := .EMM, conflict := none,
     message := "Stored experience" },
   upsertBy (fun e => e.id) entry store)

def writeKnowledge (env : Env) (content : String) (store : List KnowledgeEntry) :
    WriteResult × List KnowledgeEntry :=
  if !env.embedReady then
    ({ success := false, layer := .KMM, conflict := none,
       message := "Embeddings not ready" }, store)
  else
    let entry : KnowledgeEntry :=
      { id := env.freshId ("kmm"), content := content, category := "skill",
        embedding := env.embedF content, confidence := 0.6,
        reinforcementCount := 0, timestamp := env.nowIso }
    ({ success := true, layer := .KMM, conflict := none,
       message := "Stored as knowledge" },
     upsertBy (fun e => e.id) entry store)

structure Stores where
  identity : List IdentityFact
  experience : List ExperienceEntry
  knowledge : List KnowledgeEntry

/-- The per-layer dispatch at the end of `writeMemory`. -/
def dispatchWrite (env : Env) (content : String) (role : Role)
    (context : ContextType) (stores : Stores) (target : Layer) :
    WriteResult × Stores :=
  match target with
  | .IMM =>
    let (r, idst) := writeIdentity env content stores.identity
    (r, { stores with identity := idst })
  | .EMM =>
    let (r, est) := writeExperience env content role context stores.experience
    (r, { stores with experience := est })
  | .KMM =>
    let (r, kst) := writeKnowledge env content stores.knowledge
    (r, { stores with knowledge := kst })

/-- `writeMemory(request)`: a forced layer bypasses the router; otherwise the
router runs with empty context, `NONE` aborts without persisting, `ASK` and
`CONFLICT` default the target to `EMM`.  (The best-effort
`initEmbeddings()` retry is part of the external provider modeled by
`env.embedReady`.) -/
noncomputable def writeMemory (classifier : Option Weights) (env : Env)
    (cache : CacheState RoutingResult) (stores : Stores) (content : String)
    (role : Role) (context : ContextType) (forceLayer : Option Layer) :
    WriteResult × Stores × CacheState RoutingResult :=
  match forceLayer with
  | some L =>
    let (r, st) := dispatchWrite env content role context stores L
    (r, st, cache)
  | none =>
    let rc := route classifier env.embedF env.now cache content []
    if rc.1.decision = .NONE then
      ({ success := false, layer := .EMM, conflict := none,
         message := "Content blocked by safety rules" }, stores, rc.2)
    else
      let target : Layer :=
        match rc.1.decision with
        | .ASK => .EMM
        | .CONFLICT => .EMM
        | .IMM => .IMM
        | .EMM => .EMM
        | .KMM => .KMM
        | .NONE => .EMM
      let (r, st) := dispatchWrite env content role context stores target
      (r, st, rc.2)

/-! ## Experience decay (experienceStore.ts `applyExperienceDecay`) -/

def DECAY_RATE : ℝ := 0.95

def MIN_IMPORTANCE : ℝ := 0.1

def MS_PER_DAY : ℝ := 1000 * 60 * 60 * 24

open Classical in
/-- One entry of the decay sweep: recompute the importance from the immutable
`originalImportance` and the elapsed days, floor at `MIN_IMPORTANCE`, and
write back only when the value changed. -/
noncomputable def decayEntry (nowMs : ℝ) (e : ExperienceEntry) : ExperienceEntry :=
  let daysSinceCreation := (nowMs - e.tsMs) / MS_PER_DAY
  let newImportance :=
    max MIN_IMPORTANCE (e.originalImportance * Real.rpow DECAY_RATE daysSinceCreation)
  if newImportance ≠ e.importance then { e with importance := newImportance } else e

/-- `applyExperienceDecay()` over the whole store at clock time `nowMs`. -/
noncomputable def applyExperienceDecay (nowMs : ℝ) (es : List ExperienceEntry) :
    List ExperienceEntry :=
  es.map (decayEntry nowMs)

/-! ## Router learning state (router.ts `retrainFromHistory`) -/

structure CorrectionEntry where
  text : String
  context : List String
  correct : Layer
  timestamp : String

/-- Splice an apostrophe between two string parts (`apS "I" "m …"` is `I'm …`). -/
def apS (a b : String) : String := (a.push apoC) ++ b

/-- The seed corpus `SEED_DATA`, verbatim. -/
def SEED_DATA : List (String × Layer) :=
  [ ("My name is John", .IMM),
    ("I am vegetarian", .IMM),
    (apS ("I") ("m allergic to nuts"), .IMM),
    (apS ("I don") ("t eat meat"), .IMM),
    ("My religion is Buddhism", .IMM),
    ("I prefer dark mode", .IMM),
    ("Call me Alex", .IMM),
    ("I am 25 years old", .IMM),
    (apS ("I") ("m a software engineer"), .IMM),
    ("I live in New York", .IMM),
    ("I had a great meeting today", .EMM),
    ("We discussed the project timeline", .EMM),
    (apS ("I") ("m feeling stressed about work"), .EMM),
    ("My mom called me yesterday", .EMM),
    ("I went to the gym this morning", .EMM),
    ("The weather is nice today", .EMM),
    ("I had coffee with Sarah", .EMM),
    ("My boss approved my vacation", .EMM),
    (apS ("I") ("m excited about the weekend"), .EMM),
    ("Just finished a tough project", .EMM),
    ("I know how to code in Python", .KMM),
    ("I learned React last year", .KMM),
    ("I understand machine learning basics", .KMM),
    ("I can speak three languages", .KMM),
    (apS ("I") ("m skilled in data analysis"), .KMM),
    ("I work with databases", .KMM),
    ("I have experience in project management", .KMM),
    ("I specialize in frontend development", .KMM),
    (apS ("I") ("m good at problem solving"), .KMM),
    ("I know TypeScript well", .KMM) ]

/-- The router's mutable state together with its persistence slot: classifier
weights, routing cache, the persisted weight blob, and the persisted
correction log. -/
structure RouterState where
  classifier : Option Weights
  cache : CacheState RoutingResult
  persistedWeights : Option Weights
  corrections : List CorrectionEntry

/-- The seed-replay loop of `retrainFromHistory` (and `_doInit`): one training
pass over the seed corpus with plain text embeddings. -/
noncomputable def replaySeed (embedF : String → List ℝ) (W0 : Weights) : Weights :=
  SEED_DATA.foldl (fun W ex => trainStep W (embedF ex.1) ex.2) W0

/-- The correction-replay loop: one training pass over the log in order,
with context-blended embeddings. -/
noncomputable def replayCorrections (embedF : String → List ℝ) (W0 : Weights)
    (cs : List CorrectionEntry) : Weights :=
  cs.foldl (fun W c => trainStep W (blendEmbed embedF c.text c.context) c.correct) W0

/-- `retrainFromHistory()`: no-op without a classifier; returns early when the
loaded correction log is empty; otherwise replaces the classifier with a fresh
random initialization (`freshWeights`, the external RNG draw of
`new LinearClassifier(dim)`), replays the seed corpus, then the corrections in
order, persists the resulting weights, and clears the cache. -/
noncomputable def retrainFromHistory (embedF : String → List ℝ)
    (freshWeights : Weights) (s : RouterState) : RouterState :=
  match s.classifier with
  | none => s
  | some _ =>
    if s.corrections.isEmpty then s
    else
      let W := replayCorrections embedF (replaySeed embedF freshWeights) s.corrections
      { s with classifier := some W, persistedWeights := some W, cache := [] }

/-! ## Theorems -/

theorem ite_nonneg_q (c : Prop) [Decidable c] (a : ℚ) (ha : 0 ≤ a) :
    0 ≤ if c then a else 0 := by
  split_ifs <;> simp [ha]

/-- C10: `calculateImportance` always lies in `[0.5, 1]`: the base 0.5 is a
lower bound no input can fall below and the final `Math.min(1, ·)` caps the
top, so every experience entry built by the write path starts with importance
at least 0.5. -/
theorem calculateImportance_bounds :
    (∀ (text : String) (role : Role),
      (0.5 : ℚ) ≤ calculateImportance text role ∧ calculateImportance text role ≤ 1) ∧
    (∀ (env : Env) (content : String) (role : Role) (context : ContextType),
      (0.5 : ℝ) ≤ (mkExperienceEntry env content role context).importance) := by
  have base : ∀ (text : String) (role : Role),
      (0.5 : ℚ) ≤ calculateImportance text role ∧ calculateImportance text role ≤ 1 := by
    intro text role
    unfold calculateImportance
    have h1 : (0 : ℚ) ≤ if role = Role.user then 0.1 else 0 :=
      ite_nonneg_q _ _ (by norm_num)
    have h2 : (0 : ℚ) ≤ min 0.2
        (((emotionalWords.filter
            (fun w => containsL (lowerL text.data) w.data)).length : ℚ) * 0.05) :=
      le_min (by norm_num) (by positivity)
    have h3 : (0 : ℚ) ≤ if containsL text.data ['?'] = true then 0.1 else 0 :=
      ite_nonneg_q _ _ (by norm_num)
    have h4 : (0 : ℚ) ≤ if 20 < (splitWsPieces text.data).length then 0.1 else 0 :=
      ite_nonneg_q _ _ (by norm_num)
    refine ⟨le_min (by norm_num) (by linarith), min_le_left _ _⟩
  refine ⟨base, ?_⟩
  intro env content role context
  have h := (base content role).1
  have hcast : ((0.5 : ℚ) : ℝ) ≤ ((calculateImportance content role : ℚ) : ℝ) := by
    exact_mod_cast h
  simpa [mkExperienceEntry] using hcast

/-! ### Softmax helpers (classifier predict) -/

theorem sumExp_pos (W : Weights) (x : List ℝ) :
    0 < Real.exp (score W x .IMM - maxScore W x) +
        Real.exp (score W x .EMM - maxScore W x) +
        Real.exp (score W x .KMM - maxScore W x) := by
  have := Real.exp_pos (score W x .IMM - maxScore W x)
  have := Real.exp_pos (score W x .EMM - maxScore W x)
  have := Real.exp_pos (score W x .KMM - maxScore W x)
  linarith

theorem probsR_pos (W : Weights) (x : List ℝ) (L : Layer) :
    0 < probsR W x L :=
  div_pos (Real.exp_pos _) (sumExp_pos W x)

theorem probsR_lt_one (W : Weights) (x : List ℝ) (L : Layer) :
    probsR W x L < 1 := by
  have hI := Real.exp_pos (score W x .IMM - maxScore W x)
  have hE := Real.exp_pos (score W x .EMM - maxScore W x)
  have hK := Real.exp_pos (score W x .KMM - maxScore W x)
  have hs := sumExp_pos W x
  rw [probsR, div_lt_one hs]
  cases L <;> linarith

theorem probsR_sum_one (W : Weights) (x : List ℝ) :
    probsR W x .IMM + probsR W x .EMM + probsR W x .KMM = 1 := by
  have hs := sumExp_pos W x
  rw [probsR, probsR, probsR, div_add_div_same, div_add_div_same,
    div_self (ne_of_gt hs)]

/-- C8: the three probabilities `predict` returns are each strictly between
0 and 1 and sum exactly to 1 (hence to 1 within the 1e-6 tolerance). -/
theorem predict_simplex (W : Weights) (x : List ℝ) :
    probsR W x .IMM + probsR W x .EMM + probsR W x .KMM = 1 ∧
    |probsR W x .IMM + probsR W x .EMM + probsR W x .KMM - 1| < 1e-6 ∧
    ∀ L, 0 < probsR W x L ∧ probsR W x L < 1 := by
  refine ⟨probsR_sum_one W x, ?_, fun L => ⟨probsR_pos W x L, probsR_lt_one W x L⟩⟩
  rw [probsR_sum_one W x]
  norm_num

theorem layer_toDecision_ne (L : Layer) :
    L.toDecision ≠ Decision.ASK ∧ L.toDecision ≠ Decision.CONFLICT := by
  cases L <;> exact ⟨by decide, by decide⟩

/-- C2: on the ML path (no hard rule, no cache hit, classifier present) the
routing decision is `ASK` exactly when the top sorted probability is below
0.6, `CONFLICT` exactly when the top is at least 0.6 and the top-minus-second
margin is below 0.15, and the top layer otherwise. -/
theorem route_decision_boundaries (W : Weights) (embedF : String → List ℝ)
    (now : ℤ) (cache : CacheState RoutingResult) (text : String)
    (context : List String)
    (hrule : hardRule text = none)
    (hmiss : (cacheGet CACHE_TTL_MS now (cacheKey text context) cache).1 = none) :
    ((route (some W) embedF now cache text context).1.decision = .ASK ↔
      (topEntry (probsR W (blendEmbed embedF text context))).2 < 0.6) ∧
    ((route (some W) embedF now cache text context).1.decision = .CONFLICT ↔
      0.6 ≤ (topEntry (probsR W (blendEmbed embedF text context))).2 ∧
        (topEntry (probsR W (blendEmbed embedF text context))).2 -
          (secondEntry (probsR W (blendEmbed embedF text context))).2 < 0.15) ∧
    (0.6 ≤ (topEntry (probsR W (blendEmbed embedF text context))).2 →
      0.15 ≤ (topEntry (probsR W (blendEmbed embedF text context))).2 -
        (secondEntry (probsR W (blendEmbed embedF text context))).2 →
      (route (some W) embedF now cache text context).1.decision =
        (topEntry (probsR W (blendEmbed embedF text context))).1.toDecision) := by
  have happ : applyHardRules text = none := by
    simp [applyHardRules, hrule]
  rcases hcg : cacheGet CACHE_TTL_MS now (cacheKey text context) cache with ⟨o, c1⟩
  rw [hcg] at hmiss
  simp only at hmiss
  subst hmiss
  simp only [route, happ, hcg, CONFIDENCE_THRESHOLD, CONFLICT_MARGIN]
  split_ifs with h1 h2
  · refine ⟨by simp [h1], by simp; intro h; linarith, by intro h _; linarith⟩
  · push_neg at h1
    refine ⟨by simp; linarith, by simp [h1, h2], by intro _ h; linarith⟩
  · push_neg at h1 h2
    refine ⟨?_, ?_, fun _ _ => rfl⟩
    · constructor
      · intro h
        exact absurd h (layer_toDecision_ne _).1
      · intro h; linarith
    · constructor
      · intro h
        exact absurd h (layer_toDecision_ne _).2
      · rintro ⟨-, h⟩; linarith

/-- Witness for C2: with zero-dimensional weights every probability is 1/3,
so the top probability is below 0.6 and the route on a rule-free text with an
empty cache decides `ASK`. -/
theorem route_decision_boundaries_witness :
    hardRule ("hello zebra") = none ∧
    (cacheGet CACHE_TTL_MS 0 (cacheKey ("hello zebra") [])
      ([] : CacheState RoutingResult)).1 = none ∧
    ((route (some (fun _ => ([] : List ℝ))) (fun _ => ([] : List ℝ)) 0 []
        ("hello zebra") []).1.decision = .ASK ↔
      (topEntry (probsR (fun _ => ([] : List ℝ))
          (blendEmbed (fun _ => ([] : List ℝ)) ("hello zebra") []))).2 < 0.6) :=
  ⟨by decide, rfl,
   (route_decision_boundaries (fun _ => ([] : List ℝ)) (fun _ => ([] : List ℝ))
      0 [] ("hello zebra") [] (by decide) rfl).1⟩

/-- C1: when identity extraction succeeds, an existing fact holds the key and
its stored value differs case-insensitively, `writeIdentity` reports failure
with a conflict suggesting `ask_user` iff the existing confidence exceeds 0.8
(`update` otherwise) and leaves the identity store untouched. -/
theorem writeIdentity_conflict_no_write (env : Env) (content : String)
    (store : List IdentityFact) (k v : String) (existing : IdentityFact)
    (hext : extractIdentityFact content = ⟨some k, some v⟩)
    (hex : getIdentityByKey k store = some existing)
    (hne : lowerS existing.value ≠ lowerS v) :
    (writeIdentity env content store).2 = store ∧
    (writeIdentity env content store).1.success = false ∧
    (writeIdentity env content store).1.conflict =
      some { existingFact := existing, newValue := v,
             suggestedAction :=
               if 0.8 < existing.confidence then .ask_user else .update } := by
  have hbeq : (lowerS existing.value == lowerS v) = false := by
    simpa using hne
  simp [writeIdentity, hext, hex, hbeq]

def c1Fact : IdentityFact :=
  { id := "imm-1", key := "name", value := "John", category := "identity",
    confidence := 9 / 10, confirmationCount := 2, lastConfirmed := "t1",
    createdAt := "t0", source := .explicit }

def c1Env : Env :=
  { nowIso := "t2", nowMs := 0, now := 0, freshId := fun p => p,
    embedReady := false, embedF := fun _ => [] }

/-- Witness for C1: writing `my name is alex` against a stored
`name = John` of confidence 0.9 leaves the store unchanged. -/
theorem writeIdentity_conflict_no_write_witness :
    extractIdentityFact ("my name is alex") =
      ⟨some ("name"), some ("alex")⟩ ∧
    getIdentityByKey ("name") [c1Fact] = some c1Fact ∧
    lowerS c1Fact.value ≠ lowerS ("alex") ∧
    (writeIdentity c1Env ("my name is alex") [c1Fact]).2 = [c1Fact] :=
  ⟨by decide, by simp [getIdentityByKey, c1Fact], by decide,
   (writeIdentity_conflict_no_write c1Env ("my name is alex") [c1Fact]
      ("name") ("alex") c1Fact (by decide) (by simp [getIdentityByKey, c1Fact])
      (by decide)).1⟩

/-- C3 (code bug in `writeExperience`): the stored context is
`detectContext(content) || context`, and `detectContext` returns the *truthy*
string `"general"` when nothing is detected, so the passed context is never
used: on a content with no context keywords and a passed context `family`,
the entry is stored with context `general` instead of the passed `family`. -/
theorem writeExperience_ignores_passed_context :
    detectContext ("zzz") = ContextType.general ∧
    jsOrContext (detectContext ("zzz")) ContextType.family = ContextType.general ∧
    (∀ env : Env,
      (mkExperienceEntry env ("zzz") Role.user ContextType.family).context =
        ContextType.general) ∧
    ContextType.general ≠ ContextType.family := by
  refine ⟨by decide, by decide, ?_, by decide⟩
  intro env
  show jsOrContext (detectContext ("zzz")) ContextType.family = ContextType.general
  decide

/-- C5: a text whose trimmed lowercase form contains a blocked substring and
does not start with one of the three command prefixes routes to `NONE`, and
`writeMemory` without a forced layer fails and persists nothing to any store. -/
theorem safety_block_no_persist (classifier : Option Weights) (env : Env)
    (cache : CacheState RoutingResult) (stores : Stores) (content : String)
    (role : Role) (context : ContextType)
    (hsafe : SAFETY_BLOCKLIST.any
        (fun b => containsL (lowerL (trimL content.data)) b.data) = true)
    (hr : startsWithL (lowerL (trimL content.data)) (("/recall ").data) = false)
    (hf : startsWithL (lowerL (trimL content.data)) (("/forget ").data) = false)
    (hm : startsWithL (lowerL (trimL content.data)) (("/remember ").data) = false) :
    (route classifier env.embedF env.now cache content []).1.decision = .NONE ∧
    (writeMemory classifier env cache stores content role context none).1.success
      = false ∧
    (writeMemory classifier env cache stores content role context none).2.1
      = stores := by
  have hhr : hardRule content = some (.NONE, "Safety trigger - content blocked") := by
    simp only [hardRule, hr, hf, hm, hsafe]
    simp
  have happ : applyHardRules content =
      some (force .NONE ("Safety trigger - content blocked")) := by
    simp [applyHardRules, hhr]
  refine ⟨?_, ?_, ?_⟩ <;> simp [writeMemory, route, happ, force]

/-- Witness for C5: the blocked text `fuck you` is refused and persists
nothing. -/
theorem safety_block_no_persist_witness :
    SAFETY_BLOCKLIST.any
      (fun b => containsL (lowerL (trimL ("fuck you").data)) b.data) = true ∧
    (writeMemory none c1Env [] ⟨[], [], []⟩ ("fuck you") Role.user
        ContextType.general none).1.success = false ∧
    (writeMemory none c1Env [] ⟨[], [], []⟩ ("fuck you") Role.user
        ContextType.general none).2.1 = ⟨[], [], []⟩ :=
  ⟨by decide,
   (safety_block_no_persist none c1Env [] ⟨[], [], []⟩ ("fuck you") Role.user
      ContextType.general (by decide) (by decide) (by decide) (by decide)).2.1,
   (safety_block_no_persist none c1Env [] ⟨[], [], []⟩ ("fuck you") Role.user
      ContextType.general (by decide) (by decide) (by decide) (by decide)).2.2⟩

/-! ### Decay helpers -/

theorem decayEntry_importance (T : ℝ) (e : ExperienceEntry) :
    (decayEntry T e).importance =
      max MIN_IMPORTANCE
        (e.originalImportance * Real.rpow DECAY_RATE ((T - e.tsMs) / MS_PER_DAY)) := by
  simp only [decayEntry]
  split_ifs with h
  · rfl
  · rw [not_ne_iff] at h
    exact h.symm

theorem decayEntry_originalImportance (T : ℝ) (e : ExperienceEntry) :
    (decayEntry T e).originalImportance = e.originalImportance := by
  simp only [decayEntry]
  split_ifs <;> rfl

theorem decayEntry_tsMs (T : ℝ) (e : ExperienceEntry) :
    (decayEntry T e).tsMs = e.tsMs := by
  simp only [decayEntry]
  split_ifs <;> rfl

theorem decayEntry_idem (T : ℝ) (e : ExperienceEntry) :
    decayEntry T (decayEntry T e) = decayEntry T e := by
  have horig := decayEntry_originalImportance T e
  have hts := decayEntry_tsMs T e
  have himp := decayEntry_importance T e
  nth_rewrite 1 [decayEntry]
  rw [horig, hts, himp]
  simp

/-- C6: after the decay sweep at time `T` every entry's importance equals
`max(MIN_IMPORTANCE, original · DECAY_RATE^days)`; for non-negative elapsed
time (and an original importance at least the floor) the new importance stays
in `[MIN_IMPORTANCE, original]`; and re-running the sweep at the same instant
changes nothing. -/
theorem applyExperienceDecay_spec (T : ℝ) (es : List ExperienceEntry) :
    (∀ e ∈ applyExperienceDecay T es,
      e.importance = max MIN_IMPORTANCE
        (e.originalImportance * Real.rpow DECAY_RATE ((T - e.tsMs) / MS_PER_DAY))) ∧
    (∀ e ∈ es, e.tsMs ≤ T → MIN_IMPORTANCE ≤ e.originalImportance →
      MIN_IMPORTANCE ≤ (decayEntry T e).importance ∧
      (decayEntry T e).importance ≤ e.originalImportance) ∧
    applyExperienceDecay T (applyExperienceDecay T es) = applyExperienceDecay T es := by
  refine ⟨?_, ?_, ?_⟩
  · intro e he
    obtain ⟨e0, _, rfl⟩ := List.mem_map.mp he
    rw [decayEntry_importance, decayEntry_originalImportance, decayEntry_tsMs]
  · intro e _ h1 h2
    rw [decayEntry_importance]
    refine ⟨le_max_left _ _, max_le h2 ?_⟩
    have hd : (0 : ℝ) ≤ (T - e.tsMs) / MS_PER_DAY :=
      div_nonneg (by linarith) (by norm_num [MS_PER_DAY])
    have hr1 : Real.rpow DECAY_RATE ((T - e.tsMs) / MS_PER_DAY) ≤ 1 :=
      Real.rpow_le_one (by norm_num [DECAY_RATE]) (by norm_num [DECAY_RATE]) hd
    have h0 : (0 : ℝ) ≤ e.originalImportance := by
      have : (0 : ℝ) ≤ MIN_IMPORTANCE := by norm_num [MIN_IMPORTANCE]
      linarith
    calc e.originalImportance * Real.rpow DECAY_RATE ((T - e.tsMs) / MS_PER_DAY)
        ≤ e.originalImportance * 1 := by
          exact mul_le_mul_of_nonneg_left hr1 h0
      _ = e.originalImportance := mul_one _
  · unfold applyExperienceDecay
    rw [List.map_map]
    exact List.map_congr_left (fun e _ => by
      simp only [Function.comp_apply, decayEntry_idem])

def c6Entry : ExperienceEntry :=
  { id := "e1", content := "c", context := .general, tsMs := 0,
    importance := 0.6, originalImportance := 0.6, role := .user,
    embedding := none }

/-- Witness for C6: at zero elapsed time the decayed importance of a 0.6
entry stays within `[0.1, 0.6]`. -/
theorem applyExperienceDecay_spec_witness :
    c6Entry.tsMs ≤ (0 : ℝ) ∧ MIN_IMPORTANCE ≤ c6Entry.originalImportance ∧
    (MIN_IMPORTANCE ≤ (decayEntry 0 c6Entry).importance ∧
      (decayEntry 0 c6Entry).importance ≤ c6Entry.originalImportance) :=
  ⟨by norm_num [c6Entry], by norm_num [c6Entry, MIN_IMPORTANCE],
   (applyExperienceDecay_spec 0 [c6Entry]).2.1 c6Entry (by simp)
     (by norm_num [c6Entry]) (by norm_num [c6Entry, MIN_IMPORTANCE])⟩

/-! ### Cache helpers -/

theorem length_filter_lt {α : Type} (p : α → Bool) (l : List α) (a : α)
    (ha : a ∈ l) (hpa : p a = false) : (l.filter p).length < l.length := by
  induction l with
  | nil => cases ha
  | cons x xs ih =>
    rcases List.mem_cons.mp ha with rfl | hmem
    · rw [List.filter_cons, if_neg (by simp [hpa])]
      exact Nat.lt_succ_of_le (List.length_filter_le _ _)
    · rw [List.filter_cons]
      split_ifs
      · simpa using Nat.succ_lt_succ (ih hmem)
      · exact Nat.lt_succ_of_lt (ih hmem)

theorem cacheGet_length_le {α : Type} (ttl now : ℤ) (k : String)
    (s : CacheState α) : ((cacheGet ttl now k s).2).length ≤ s.length := by
  unfold cacheGet
  rcases hf : s.find? (fun p => p.1 == k) with _ | e
  · rw [hf]
  · rw [hf]
    dsimp only
    have hmem := List.mem_of_find?_eq_some hf
    have hpred := List.find?_some hf
    have hlt : (eraseCacheKey k s).length < s.length :=
      length_filter_lt _ s e hmem (by simp [hpred])
    split_ifs
    · simpa using le_of_lt hlt
    · simpa using hlt

theorem cacheSet_length_le {α : Type} (maxSize : ℕ) (now : ℤ) (k : String)
    (v : α) (s : CacheState α) (hpos : 0 < maxSize) (h : s.length ≤ maxSize) :
    (cacheSet maxSize now k v s).length ≤ maxSize := by
  have herase : (eraseCacheKey k s).length ≤ s.length := List.length_filter_le _ _
  simp only [cacheSet]
  split_ifs <;>
    simp only [List.length_append, List.length_tail, List.length_cons,
      List.length_nil] <;>
    omega

theorem foldl_cacheOps_length {α : Type} (ops : List (CacheOp α))
    (s : CacheState α) (h : s.length ≤ CACHE_CAPACITY) :
    (ops.foldl applyCacheOp s).length ≤ CACHE_CAPACITY := by
  induction ops generalizing s with
  | nil => simpa
  | cons op rest ih =>
    rw [List.foldl_cons]
    apply ih
    cases op with
    | get now k =>
      exact le_trans (cacheGet_length_le CACHE_TTL_MS now k s) h
    | set now k v =>
      exact cacheSet_length_le CACHE_CAPACITY now k v s
        (by norm_num [CACHE_CAPACITY]) h
    | clear => exact Nat.zero_le _

theorem find?_eraseCacheKey {α : Type} (k : String) (s : CacheState α) :
    (eraseCacheKey k s).find? (fun p => p.1 == k) = none := by
  rw [List.find?_eq_none]
  intro x hx
  have hkeep := (List.mem_filter.mp hx).2
  simp only [Bool.not_eq_true'] at hkeep
  simp [hkeep]

/-- C9: starting from the freshly constructed cache, any sequence of
get/set/clear operations keeps the entry count within the capacity of 1000;
and a `get` on a key stored more than the 30-minute TTL ago evicts the entry
and reports a miss. -/
theorem cache_capacity_and_ttl :
    (∀ (α : Type) (ops : List (CacheOp α)),
      (runCacheOps ops).length ≤ CACHE_CAPACITY) ∧
    (∀ (α : Type) (now : ℤ) (k : String) (s : CacheState α) (e : CacheEntry α),
      lookupCache k s = some e → CACHE_TTL_MS < now - e.timestamp →
      cacheGet CACHE_TTL_MS now k s = (none, eraseCacheKey k s) ∧
      lookupCache k (cacheGet CACHE_TTL_MS now k s).2 = none) := by
  constructor
  · intro α ops
    exact foldl_cacheOps_length ops [] (by simp [CACHE_CAPACITY])
  · intro α now k s e hl hexp
    unfold lookupCache at hl
    rcases hf : s.find? (fun p => p.1 == k) with _ | pe
    · rw [hf] at hl
      simp at hl
    · rw [hf] at hl
      have hpe : pe.2 = e := by simpa using hl
      have hget : cacheGet CACHE_TTL_MS now k s = (none, eraseCacheKey k s) := by
        unfold cacheGet
        rw [hf]
        dsimp only
        rw [if_pos (show CACHE_TTL_MS < now - pe.2.timestamp by rw [hpe]; exact hexp)]
      refine ⟨hget, ?_⟩
      rw [hget]
      unfold lookupCache
      rw [find?_eraseCacheKey]
      rfl

/-- Witness for C9: one `set` keeps the size within capacity, and a `get`
2 000 000 ms after an insertion at time 0 (past the 1 800 000 ms TTL) evicts
the entry and misses. -/
theorem cache_capacity_and_ttl_witness :
    (runCacheOps [CacheOp.set 0 ("a") true]).length ≤ CACHE_CAPACITY ∧
    lookupCache ("a") ([(("a"), ⟨true, 0⟩)] : CacheState Bool) = some ⟨true, 0⟩ ∧
    CACHE_TTL_MS < 2000000 - (0 : ℤ) ∧
    cacheGet CACHE_TTL_MS 2000000 ("a") ([(("a"), ⟨true, 0⟩)] : CacheState Bool) =
      (none, eraseCacheKey ("a") [(("a"), ⟨true, 0⟩)]) :=
  ⟨cache_capacity_and_ttl.1 Bool [CacheOp.set 0 ("a") true], by decide, by decide,
   (cache_capacity_and_ttl.2 Bool 2000000 ("a") [(("a"), ⟨true, 0⟩)] ⟨true, 0⟩
      (by decide) (by decide)).1⟩

/-! ### Retraining (C4) -/

def c4RR : RoutingResult :=
  { decision := .ASK, confidence := 0, probabilities := fun _ => 0,
    source := .ML, reasoning := "r" }

/-- C4 counterexample: with an *empty* persisted correction log,
`retrainFromHistory` returns before doing anything — in particular a
non-empty routing cache is not cleared, so the claim's "for every state of
the persisted correction log (including an empty log)" fails. -/
theorem retrainFromHistory_empty_log_cex :
    (retrainFromHistory (fun _ => []) (fun _ => [])
        { classifier := some (fun _ => []), cache := [(("k"), ⟨c4RR, 0⟩)],
          persistedWeights := none, corrections := [] }).cache =
      [(("k"), ⟨c4RR, 0⟩)] ∧
    ([(("k"), (⟨c4RR, 0⟩ : CacheEntry RoutingResult))] :
        CacheState RoutingResult) ≠ ([] : CacheState RoutingResult) := by
  constructor
  · rfl
  · simp

/-- C4 (amended): provided the classifier is initialized and the persisted
correction log is non-empty, `retrainFromHistory` resets the weights to a
fresh initialization, replays the seed corpus and then every persisted
correction in order, persists the resulting weights, clears the routing
cache, and leaves the correction log itself unchanged. -/
theorem retrainFromHistory_nonempty_spec (embedF : String → List ℝ)
    (fresh : Weights) (s : RouterState) (cl : Weights)
    (hcl : s.classifier = some cl) (hne : s.corrections ≠ []) :
    (retrainFromHistory embedF fresh s).classifier =
      some (replayCorrections embedF (replaySeed embedF fresh) s.corrections) ∧
    (retrainFromHistory embedF fresh s).persistedWeights =
      some (replayCorrections embedF (replaySeed embedF fresh) s.corrections) ∧
    (retrainFromHistory embedF fresh s).cache = [] ∧
    (retrainFromHistory embedF fresh s).corrections = s.corrections := by
  have hemp : s.corrections.isEmpty = false := by
    rcases h : s.corrections with _ | ⟨c, cs⟩
    · exact absurd h hne
    · rfl
  unfold retrainFromHistory
  rw [hcl]
  simp [hemp]

def c4State : RouterState :=
  { classifier := some (fun _ => []), cache := [(("k"), ⟨c4RR, 0⟩)],
    persistedWeights := none,
    corrections := [{ text := "t", context := [], correct := .EMM,
                      timestamp := "ts" }] }

/-- Witness for C4 (amended): a state with one persisted correction has its
cache cleared by `retrainFromHistory`. -/
theorem retrainFromHistory_nonempty_spec_witness :
    c4State.classifier = some (fun _ => []) ∧
    c4State.corrections ≠ [] ∧
    (retrainFromHistory (fun _ => []) (fun _ => []) c4State).cache = [] :=
  ⟨rfl, by simp [c4State],
   (retrainFromHistory_nonempty_spec (fun _ => []) (fun _ => []) c4State
      (fun _ => []) rfl (by simp [c4State])).2.2.1⟩

/-! ### Classifier training (C7) -/

theorem dotR_update (w x : List ℝ) (err : ℝ) (h : w.length = x.length) :
    dotR (updateW w x err) x = dotR w x + 0.05 * err * dotR x x := by
  induction w generalizing x with
  | nil =>
    have hx : x = [] := by
      cases x with
      | nil => rfl
      | cons a as => simp at h
    subst hx
    simp [updateW, dotR]
  | cons wh wt ih =>
    cases x with
    | nil => simp at h
    | cons xh xt =>
      have hlen : wt.length = xt.length := by simpa using h
      have ihx := ih xt hlen
      simp only [updateW, List.zipWith_cons_cons, List.length_cons,
        List.drop_succ_cons, List.cons_append, dotR, List.sum_cons] at ihx ⊢
      rw [ihx]
      ring

theorem score_trainStep (W : Weights) (x : List ℝ) (c L : Layer)
    (h : (W L).length = x.length) :
    score (trainStep W x c) x L =
      score W x L + 0.05 * (indicator L c - probsR W x L) * dotR x x := by
  show dotR (updateW (W L) x (indicator L c - probsR W x L)) x = _
  exact dotR_update (W L) x _ h

/-- The stable softmax of `predict` equals the plain softmax of the raw
scores: the shift by the maximum cancels. -/
theorem probsR_eq (W : Weights) (x : List ℝ) (L : Layer) :
    probsR W x L = Real.exp (score W x L) /
      (Real.exp (score W x .IMM) + Real.exp (score W x .EMM) +
       Real.exp (score W x .KMM)) := by
  have hm : Real.exp (maxScore W x) ≠ 0 := (Real.exp_pos _).ne'
  have hI := Real.exp_pos (score W x .IMM)
  have hE := Real.exp_pos (score W x .EMM)
  have hK := Real.exp_pos (score W x .KMM)
  have hsum : Real.exp (score W x .IMM) + Real.exp (score W x .EMM) +
      Real.exp (score W x .KMM) ≠ 0 := by linarith
  rw [probsR, Real.exp_sub, Real.exp_sub, Real.exp_sub, Real.exp_sub,
    div_add_div_same, div_add_div_same, div_div_div_cancel_right₀]
  exact hm

theorem div_sum3_lt (a b c a2 b2 c2 : ℝ) (ha : 0 < a) (hb : 0 < b) (hc : 0 < c)
    (ha2 : 0 < a2) (hb2 : 0 < b2) (hc2 : 0 < c2)
    (h1 : a * b2 < a2 * b) (h2 : a * c2 < a2 * c) :
    a / (a + b + c) < a2 / (a2 + b2 + c2) := by
  rw [div_lt_div_iff₀ (by linarith) (by linarith)]
  nlinarith

/-- C7 (amended): one `train(x, L)` step strictly increases the predicted
probability of the trained layer on the same input, provided the weight
vectors have the input's length and the input has positive squared norm
(`x ≠ 0`); for `x = 0` the update is a no-op and the probability is
unchanged. -/
theorem train_increases_correct_prob (W : Weights) (x : List ℝ) (c : Layer)
    (hdim : ∀ L, (W L).length = x.length) (hx : 0 < dotR x x) :
    probsR W x c < probsR (trainStep W x c) x c := by
  have hscore : ∀ L, score (trainStep W x c) x L =
      score W x L + 0.05 * (indicator L c - probsR W x L) * dotR x x :=
    fun L => score_trainStep W x c L (hdim L)
  have hkey : ∀ L, L ≠ c →
      Real.exp (score W x c) * Real.exp (score (trainStep W x c) x L) <
        Real.exp (score (trainStep W x c) x c) * Real.exp (score W x L) := by
    intro L hL
    rw [← Real.exp_add, ← Real.exp_add, Real.exp_lt_exp, hscore, hscore]
    have hpL := probsR_pos W x L
    have hpc := probsR_lt_one W x c
    have hind1 : indicator c c = 1 := by simp [indicator]
    have hind0 : indicator L c = 0 := by simp [indicator, hL]
    rw [hind1, hind0]
    nlinarith [mul_pos hx hpL, mul_pos hx (sub_pos.mpr hpc)]
  have eo : ∀ L, 0 < Real.exp (score W x L) := fun L => Real.exp_pos _
  have en : ∀ L, 0 < Real.exp (score (trainStep W x c) x L) :=
    fun L => Real.exp_pos _
  rw [probsR_eq, probsR_eq]
  cases c with
  | IMM =>
    exact div_sum3_lt _ _ _ _ _ _ (eo .IMM) (eo .EMM) (eo .KMM) (en .IMM)
      (en .EMM) (en .KMM) (hkey .EMM (by decide)) (hkey .KMM (by decide))
  | EMM =>
    have e1 : Real.exp (score W x .IMM) + Real.exp (score W x .EMM) +
        Real.exp (score W x .KMM) =
        Real.exp (score W x .EMM) + Real.exp (score W x .IMM) +
        Real.exp (score W x .KMM) := by ring
    have e2 : Real.exp (score (trainStep W x .EMM) x .IMM) +
        Real.exp (score (trainStep W x .EMM) x .EMM) +
        Real.exp (score (trainStep W x .EMM) x .KMM) =
        Real.exp (score (trainStep W x .EMM) x .EMM) +
        Real.exp (score (trainStep W x .EMM) x .IMM) +
        Real.exp (score (trainStep W x .EMM) x .KMM) := by ring
    rw [e1, e2]
    exact div_sum3_lt _ _ _ _ _ _ (eo .EMM) (eo .IMM) (eo .KMM) (en .EMM)
      (en .IMM) (en .KMM) (hkey .IMM (by decide)) (hkey .KMM (by decide))
  | KMM =>
    have e1 : Real.exp (score W x .IMM) + Real.exp (score W x .EMM) +
        Real.exp (score W x .KMM) =
        Real.exp (score W x .KMM) + Real.exp (score W x .IMM) +
        Real.exp (score W x .EMM) := by ring
    have e2 : Real.exp (score (trainStep W x .KMM) x .IMM) +
        Real.exp (score (trainStep W x .KMM) x .EMM) +
        Real.exp (score (trainStep W x .KMM) x .KMM) =
        Real.exp (score (trainStep W x .KMM) x .KMM) +
        Real.exp (score (trainStep W x .KMM) x .IMM) +
        Real.exp (score (trainStep W x .KMM) x .EMM) := by ring
    rw [e1, e2]
    exact div_sum3_lt _ _ _ _ _ _ (eo .KMM) (eo .IMM) (eo .EMM) (en .KMM)
      (en .IMM) (en .EMM) (hkey .IMM (by decide)) (hkey .EMM (by decide))

/-- C7 counterexample: on the zero input vector the gradient step moves no
weight, so the trained-layer probability is *not* strictly greater after
`train` — the claim fails for `x = 0`. -/
theorem train_zero_vector_cex :
    ¬ (probsR (fun _ => [(0 : ℝ)]) [(0 : ℝ)] .IMM <
       probsR (trainStep (fun _ => [(0 : ℝ)]) [(0 : ℝ)] .IMM) [(0 : ℝ)] .IMM) := by
  have hW : trainStep (fun _ => [(0 : ℝ)]) [(0 : ℝ)] .IMM =
      (fun _ => [(0 : ℝ)]) := by
    funext L
    show updateW [(0 : ℝ)] [(0 : ℝ)] _ = [(0 : ℝ)]
    simp [updateW]
  rw [hW]
  exact lt_irrefl _

/-- Witness for C7 (amended): for the one-dimensional zero weights and the
input `[1]`, training on `IMM` strictly increases the `IMM` probability. -/
theorem train_increases_correct_prob_witness :
    (∀ L, (((fun _ => [(0 : ℝ)]) : Weights) L).length = [(1 : ℝ)].length) ∧
    0 < dotR [(1 : ℝ)] [(1 : ℝ)] ∧
    probsR (fun _ => [(0 : ℝ)]) [(1 : ℝ)] .IMM <
      probsR (trainStep (fun _ => [(0 : ℝ)]) [(1 : ℝ)] .IMM) [(1 : ℝ)] .IMM :=
  ⟨fun _ => rfl, by norm_num [dotR],
   train_increases_correct_prob (fun _ => [(0 : ℝ)]) [(1 : ℝ)] .IMM
     (fun _ => rfl) (by norm_num [dotR])⟩

end Presence
